import Mathlib

/-!
Shallow embedding of `src/zog-component-plugin.js` (the Zog.js component
plugin).  The plugin owns a name-to-definition registry, a `registerComponent`
registration function, a `beforeCompile` compilation hook and the `emit`
capability injected into each child state.  Host capabilities
(`utils.evalExp`, the HTML parser behind `innerHTML`, the inline `new
Function` evaluator) are taken as explicit function parameters; DOM trees are
embedded as a `Node` inductive; JS exceptions are embedded as `Except`.

String primitives (`toLowerCase`, `slice`, `trim`, `split`, `startsWith`) are
re-implemented structurally over `String.data` so that every definition
reduces by `rfl`/`decide` on concrete inputs.
-/

set_option autoImplicit false

namespace Zog

/-- JS runtime values that flow through child state and emit arguments. -/
inductive V where
  | undef : V
  | str (s : String) : V
  | int (n : Int) : V
deriving DecidableEq, Repr

/-- An entry of a reactive scope object: either a data value or a
function-valued member (a parent method).  A function may throw, which is
embedded as `Except.error`. -/
inductive Entry where
  | val (v : V) : Entry
  | func (f : List V → Except String V) : Entry

/-- A parent scope: the own enumerable entries of the scope object, in
insertion order (what `Object.keys` / `Object.values` enumerate). -/
abbrev ScopeT := List (String × Entry)

/-- ASCII lower-casing of one character (`String.prototype.toLowerCase` on
the ASCII range used for tag and component names). -/
def lowerChar (c : Char) : Char :=
  if 'A' ≤ c ∧ c ≤ 'Z' then Char.ofNat (c.toNat + 32) else c

/-- `s.toLowerCase()`. -/
def strLower (s : String) : String := ⟨s.data.map lowerChar⟩

/-- `s.startsWith(p)`. -/
def strStartsWith (s p : String) : Bool := p.data.isPrefixOf s.data

/-- `s.slice(n)` for a nonnegative `n`. -/
def strDrop (s : String) (n : Nat) : String := ⟨s.data.drop n⟩

/-- The JS whitespace characters relevant to `trim` and to DOM class-token
splitting (space, tab, LF, CR, FF). -/
def isJsWhitespaceChar (c : Char) : Bool :=
  c = ' ' || c = '\t' || c = '\n' || c = '\r' || c = '\x0c'

/-- `s.trim()`. -/
def strTrim (s : String) : String :=
  ⟨((s.data.dropWhile isJsWhitespaceChar).reverse.dropWhile isJsWhitespaceChar).reverse⟩

/-- Split a character list at every occurrence of `sep`, keeping empty
groups, exactly like `String.prototype.split` with a one-character
separator. -/
def splitChars (sep : Char) : List Char → List (List Char)
  | [] => [[]]
  | c :: cs =>
    if c = sep then [] :: splitChars sep cs
    else
      match splitChars sep cs with
      | [] => [[c]]
      | g :: gs => (c :: g) :: gs

/-- `s.split(sep)` for a one-character separator (`value.split(' ')` in the
source). -/
def splitOnChar (sep : Char) (s : String) : List String :=
  (splitChars sep s.data).map (fun l => ⟨l⟩)

/-- Split a character list at every whitespace character, keeping empty
groups. -/
def splitCharsWs : List Char → List (List Char)
  | [] => [[]]
  | c :: cs =>
    if isJsWhitespaceChar c then [] :: splitCharsWs cs
    else
      match splitCharsWs cs with
      | [] => [[c]]
      | g :: gs => (c :: g) :: gs

/-- Split a string at whitespace, dropping empty groups: how the DOM parses
a `class` attribute into its ordered token set. -/
def splitWsTokens (s : String) : List String :=
  ((splitCharsWs s.data).map (fun l => ⟨l⟩)).filter (fun t => t ≠ "")

/-- Keep the first occurrence of each element (the DOM ordered-set parser
drops duplicate class tokens). -/
def dedupKeepFirst (l : List String) : List String :=
  l.foldl (fun acc x => if x ∈ acc then acc else acc ++ [x]) []

/-- First-match lookup in an association list (`Map.get`, JS object member
access). -/
def lookupAssoc {α : Type} : List (String × α) → String → Option α
  | [], _ => none
  | (k, v) :: rest, key => if k = key then some v else lookupAssoc rest key

/-- Overwrite-or-append update of an association list (`Map.set`, JS object
member assignment). -/
def setAssoc {α : Type} : List (String × α) → String → α → List (String × α)
  | [], key, v => [(key, v)]
  | (k, w) :: rest, key, v =>
    if k = key then (key, v) :: rest else (k, w) :: setAssoc rest key v

/-- A DOM node: an element with tag, attributes and children, a text node,
or a comment node. -/
inductive Node where
  | element (tag : String) (attrs : List (String × String)) (children : List Node) : Node
  | text (s : String) : Node
  | comment (s : String) : Node

mutual

/-- Decidable equality for DOM nodes (the nested `List Node` children field
prevents automatic derivation). -/
def nodeDecEq : (a b : Node) → Decidable (a = b)
  | .element t1 a1 c1, .element t2 a2 c2 =>
    match decEq t1 t2, decEq a1 a2, nodeListDecEq c1 c2 with
    | isTrue h1, isTrue h2, isTrue h3 => isTrue (by rw [h1, h2, h3])
    | isFalse h1, _, _ => isFalse (fun h => by cases h; exact h1 rfl)
    | _, isFalse h2, _ => isFalse (fun h => by cases h; exact h2 rfl)
    | _, _, isFalse h3 => isFalse (fun h => by cases h; exact h3 rfl)
  | .element t1 a1 c1, .text s2 => isFalse (fun h => Node.noConfusion h)
  | .element t1 a1 c1, .comment s2 => isFalse (fun h => Node.noConfusion h)
  | .text s1, .element t2 a2 c2 => isFalse (fun h => Node.noConfusion h)
  | .text s1, .text s2 =>
    match decEq s1 s2 with
    | isTrue h1 => isTrue (by rw [h1])
    | isFalse h1 => isFalse (fun h => by cases h; exact h1 rfl)
  | .text s1, .comment s2 => isFalse (fun h => Node.noConfusion h)
  | .comment s1, .element t2 a2 c2 => isFalse (fun h => Node.noConfusion h)
  | .comment s1, .text s2 => isFalse (fun h => Node.noConfusion h)
  | .comment s1, .comment s2 =>
    match decEq s1 s2 with
    | isTrue h1 => isTrue (by rw [h1])
    | isFalse h1 => isFalse (fun h => by cases h; exact h1 rfl)

/-- Decidable equality for node lists, mutually with `nodeDecEq`. -/
def nodeListDecEq : (as bs : List Node) → Decidable (as = bs)
  | [], [] => isTrue rfl
  | [], _ :: _ => isFalse (fun h => by cases h)
  | _ :: _, [] => isFalse (fun h => by cases h)
  | a :: as, b :: bs =>
    match nodeDecEq a b, nodeListDecEq as bs with
    | isTrue h1, isTrue h2 => isTrue (by rw [h1, h2])
    | isFalse h1, _ => isFalse (fun h => by cases h; exact h1 rfl)
    | _, isFalse h2 => isFalse (fun h => by cases h; exact h2 rfl)

end

instance : DecidableEq Node := nodeDecEq

/-- `el.attributes` of an element node. -/
def attrsOf : Node → List (String × String)
  | .element _ a _ => a
  | _ => []

/-- `el.childNodes` of an element node. -/
def childrenOf : Node → List Node
  | .element _ _ c => c
  | _ => []

/-- Replace an element's attribute list. -/
def withAttrs : Node → List (String × String) → Node
  | .element t _ c, a => .element t a c
  | n, _ => n

/-- Replace an element's child list. -/
def setChildren : Node → List Node → Node
  | .element t a _, c => .element t a c
  | n, _ => n

/-- Is this node an element node (`nodeType === 1`)? -/
def isElem : Node → Bool
  | .element _ _ _ => true
  | _ => false

/-- `container.firstElementChild` over a parsed child-node list: the first
element node, skipping text and comments. -/
def firstElementChild (ns : List Node) : Option Node := ns.find? isElem

/-- `getAttribute`: first binding of the attribute name. -/
def getAttr (attrs : List (String × String)) (name : String) : Option String :=
  lookupAssoc attrs name

/-- `DOMTokenList.add` on a current token list: throws `SyntaxError` on an
empty token and `InvalidCharacterError` on a token containing whitespace;
otherwise appends, in order, each token not already present. -/
def classListAddTokens (cur : List String) (toks : List String) :
    Except String (List String) :=
  if "" ∈ toks then
    .error "SyntaxError: empty class token"
  else if ∃ t ∈ toks, ∃ c ∈ t.data, isJsWhitespaceChar c = true then
    .error "InvalidCharacterError: class token contains whitespace"
  else
    .ok (toks.foldl (fun acc t => if t ∈ acc then acc else acc ++ [t]) cur)

/-- Current ordered class-token set of an attribute list (what `classList`
reads from the `class` attribute). -/
def curClassTokens (attrs : List (String × String)) : List String :=
  dedupKeepFirst (splitWsTokens ((getAttr attrs "class").getD ""))

/-- Serialize a token list back into a `class` attribute value. -/
def joinSpace : List String → String
  | [] => ""
  | [t] => t
  | t :: rest => t ++ " " ++ joinSpace rest

/-- `componentRoot.classList.add(...value.split(' '))`: split the usage-site
value on single spaces, add the tokens to the root's class token set, and
serialize back into the `class` attribute.  Token validation errors are
thrown (propagated). -/
def addClassAttr (attrs : List (String × String)) (value : String) :
    Except String (List (String × String)) :=
  match classListAddTokens (curClassTokens attrs) (splitOnChar ' ' value) with
  | .error e => .error e
  | .ok l => .ok (setAssoc attrs "class" (joinSpace l))

/-- `componentRoot.style.cssText += ';' + value`: append the usage-site
style text to the existing inline style after a `;` separator.  The inline
style is embedded as the raw `style` attribute text. -/
def appendStyleAttr (attrs : List (String × String)) (value : String) :
    List (String × String) :=
  setAssoc attrs "style" (((getAttr attrs "style").getD "") ++ ";" ++ value)

/-- The result object a `setup` function may return, to be merged into child
state (present in the specification; see the theorems about whether the
source ever invokes it). -/
abbrev SetupFn := List (String × V) → Option (List (String × V))

/-- A registered component definition: the `options` object passed to
`registerComponent`.  A missing template is embedded as the empty string
(both are falsy in `if (!options.template)`). -/
structure ComponentDef where
  template : String
  setup : Option SetupFn := none

/-- The warning logged by `registerComponent` when the template is missing. -/
def missingTemplateWarn (name : String) : String :=
  "[ComponentPlugin] Component \"" ++ name ++ "\" is missing a template."

/-- `registerComponent(name, options)`: reject (warn, no-op) a definition
whose template is falsy, otherwise store it under the lower-cased name.
Returns the updated registry and the list of emitted warnings. -/
def registerComponent (registry : List (String × ComponentDef)) (name : String)
    (options : ComponentDef) : List (String × ComponentDef) × List String :=
  if options.template = "" then
    (registry, [missingTemplateWarn name])
  else
    (setAssoc registry (strLower name) options, [])

/-- Candidate component name of a tag: lower-case it and strip a `z-`
prefix if present. -/
def componentNameOf (tag : String) : String :=
  let tagName := strLower tag
  if strStartsWith tagName "z-" then strDrop tagName 2 else tagName

/-- `childData[key] = v`.  The `emit` member is installed with
`writable: false`, and the plugin is module code (strict mode), so an
assignment to `emit` throws a `TypeError`; every other assignment is an
overwrite-or-append. -/
def childSet (cd : List (String × V)) (key : String) (v : V) :
    Except String (List (String × V)) :=
  if key = "emit" then
    .error "TypeError: cannot assign to read only member emit"
  else
    .ok (setAssoc cd key v)

/-- Mutable state threaded through the attribute-processing loop of the
hook: the child data object, the parent-listener map, the component root
(whose class and style the loop may mutate) and the effects registered on
the parent's compile state via `cs.addEffect(watchEffect(...))`, each
recorded as (prop name, expression source). -/
structure AttrState where
  childData : List (String × V)
  parentListeners : List (String × String)
  componentRoot : Node
  csEffects : List (String × String)


/-- One iteration of `Array.from(el.attributes).forEach(...)`: classify the
attribute by the source's if-else chain.  `:name` registers a prop watcher
on the parent compile state; `@name` stores the raw value in the listener
map; `class` and `style` merge into the component root; anything else is a
static prop assignment into child data.  Thrown errors propagate. -/
def processAttr (st : AttrState) (attr : String × String) : Except String AttrState :=
  let name := attr.1
  let value := attr.2
  if strStartsWith name ":" then
    let propName := strDrop name 1
    .ok { st with csEffects := st.csEffects ++ [(propName, value)] }
  else if strStartsWith name "@" then
    let eventName := strDrop name 1
    .ok { st with parentListeners := setAssoc st.parentListeners eventName value }
  else if name = "class" then
    match addClassAttr (attrsOf st.componentRoot) value with
    | .error e => .error e
    | .ok attrs2 => .ok { st with componentRoot := withAttrs st.componentRoot attrs2 }
  else if name = "style" then
    .ok { st with componentRoot :=
            withAttrs st.componentRoot (appendStyleAttr (attrsOf st.componentRoot) value) }
  else
    match childSet st.childData name (V.str value) with
    | .error e => .error e
    | .ok cd => .ok { st with childData := cd }

/-- The whole attribute loop, in document order; the first thrown error
aborts the loop (and the hook). -/
def processAttrs (st : AttrState) : List (String × String) → Except String AttrState
  | [] => .ok st
  | a :: rest =>
    match processAttr st a with
    | .error e => .error e
    | .ok st2 => processAttrs st2 rest

/-- Does any node of the list, or any descendant, match
`querySelector('slot')` (an element whose lower-cased tag is `slot`)? -/
def nodesHaveSlot : List Node → Bool
  | [] => false
  | .element t _ c :: rest =>
    strLower t = "slot" || nodesHaveSlot c || nodesHaveSlot rest
  | _ :: rest => nodesHaveSlot rest

/-- The net effect of the slot loop: the first `slot` element in pre-order
document order is replaced by the injected nodes (`insertBefore` of every
original child in order, then `slot.remove()`, which discards the slot's
own subtree).  Returns the rewritten list and whether a slot was found. -/
def replaceSlotList (inj : List Node) : List Node → List Node × Bool
  | [] => ([], false)
  | .element t a c :: rest =>
    if strLower t = "slot" then (inj ++ rest, true)
    else
      match replaceSlotList inj c with
      | (c2, true) => (.element t a c2 :: rest, true)
      | (_, false) =>
        let r := replaceSlotList inj rest
        (.element t a c :: r.1, r.2)
  | n :: rest =>
    let r := replaceSlotList inj rest
    (n :: r.1, r.2)

/-- The data produced by one successful component instantiation: exactly one
fresh child state (`reactive({})` plus the processed attributes), the
captured listener map, the prop effects added to the parent compile state,
the original children that were compiled against the parent scope (in
order) before being moved into the slot, and the single replacement root
that is `replaceWith`-installed and then compiled against the child state
under a fresh `Scope`. -/
structure Instance where
  childData : List (String × V)
  parentListeners : List (String × String)
  csEffects : List (String × String)
  parentCompiled : List Node
  replacement : Node


/-- Outcome of the `beforeCompile` hook.  `ignoredNonElement` is the bare
`return` (undefined) for non-element nodes; `noMatch` is `return true`;
`stoppedNoRoot` is the template-shape error path (`console.error` then
`return false`, with the original element left untouched in the tree);
`stopped` is the successful path (`return false` after `replaceWith`);
`threw` is an exception escaping the hook body (caught only by the host's
internal hook guard). -/
inductive HookRes where
  | ignoredNonElement : HookRes
  | noMatch : HookRes
  | stoppedNoRoot : HookRes
  | stopped (inst : Instance) : HookRes
  | threw (e : String) : HookRes


/-- Initial attribute-loop state: empty reactive child data, empty listener
map, the freshly parsed component root, no registered effects. -/
def initAttrState (root : Node) : AttrState :=
  { childData := [], parentListeners := [], componentRoot := root, csEffects := [] }

/-- The `beforeCompile` hook.  `parseHTML` is the host browser's HTML
parser (`tempContainer.innerHTML = ...` yielding the container's child
nodes); the parent scope argument is captured only by the emit closure and
the prop watchers, which are modelled separately (`emit`,
`runPropBinding`), so it is unused in the structural part embedded here. -/
def beforeCompile (parseHTML : String → List Node)
    (registry : List (String × ComponentDef)) (el : Node) (_scope : ScopeT) :
    HookRes :=
  match el with
  | .text _ => .ignoredNonElement
  | .comment _ => .ignoredNonElement
  | .element tag attrs children =>
    match lookupAssoc registry (componentNameOf tag) with
    | none => .noMatch
    | some defn =>
      match firstElementChild (parseHTML (strTrim defn.template)) with
      | none => .stoppedNoRoot
      | some componentRoot =>
        match processAttrs (initAttrState componentRoot) attrs with
        | .error e => .threw e
        | .ok st =>
          match replaceSlotList children (childrenOf st.componentRoot) with
          | (newKids, true) =>
            .stopped { childData := st.childData
                       parentListeners := st.parentListeners
                       csEffects := st.csEffects
                       parentCompiled := children
                       replacement := setChildren st.componentRoot newKids }
          | (_, false) =>
            .stopped { childData := st.childData
                       parentListeners := st.parentListeners
                       csEffects := st.csEffects
                       parentCompiled := []
                       replacement := st.componentRoot }

/-- Observable outcome of one `emit` call that did not throw. -/
inductive EmitResult where
  | noListenerWarned : EmitResult
  | calledFunction (name : String) (args : List V) : EmitResult
  | evaluatedInline (code : String) (bindings : List (String × Entry)) : EmitResult
  | inlineErrorLogged (code : String) (err : String) : EmitResult

/-- The `emit(eventName, ...args)` capability.  `evalInline` is the host JS
engine behind `new Function(...fnKeys, '$event', ...)` followed by the
call: it receives the handler source and the exact bindings (the current
scope entries plus `$event` bound to the first argument) and may throw.
The named-handler call `scope[handlerCode](...args)` is outside the
try/catch in the source, so an error from the parent function propagates;
inline evaluation errors are caught and logged. -/
def emit (scope : ScopeT) (evalInline : String → List (String × Entry) → Except String V)
    (parentListeners : List (String × String)) (eventName : String) (args : List V) :
    Except String EmitResult :=
  match lookupAssoc parentListeners eventName with
  | none => .ok .noListenerWarned
  | some handlerCode =>
    if handlerCode = "" then .ok .noListenerWarned
    else
      match lookupAssoc scope handlerCode with
      | some (.func f) =>
        match f args with
        | .ok _ => .ok (.calledFunction handlerCode args)
        | .error e => .error e
      | _ =>
        let bindings := scope ++ [("$event", Entry.val (args.headD V.undef))]
        match evalInline handlerCode bindings with
        | .ok _ => .ok (.evaluatedInline handlerCode bindings)
        | .error e => .ok (.inlineErrorLogged handlerCode e)

/-- The diagnostic logged when a prop binding fails to evaluate. -/
def propErrorLog (propName : String) : String :=
  "[Prop Error] Failed to evaluate :" ++ propName

/-- The body of the watcher registered for a `:prop` attribute
(`watchEffect` callback): evaluate the expression against the parent scope
and assign into child data; any error is caught and logged, leaving child
data unchanged.  `evalExp` is the host's `utils.evalExp`.  Returns the
updated child data and the logged diagnostics. -/
def runPropBinding (evalExp : String → ScopeT → Except String V) (scope : ScopeT)
    (cd : List (String × V)) (binding : String × String) :
    List (String × V) × List String :=
  let propName := binding.1
  let expr := binding.2
  match evalExp expr scope with
  | .error _ => (cd, [propErrorLog propName])
  | .ok v =>
    match childSet cd propName v with
    | .error _ => (cd, [propErrorLog propName])
    | .ok cd2 => (cd2, [])

/-- Replace the first occurrence of `el` in a sibling list by `repl`
(`el.replaceWith(componentRoot)` seen from the parent's child list). -/
def replaceFirst : List Node → Node → Node → List Node
  | [], _, _ => []
  | n :: rest, el, repl =>
    if n = el then repl :: rest else n :: replaceFirst rest el repl

/-- Effect of the hook's outcome on the sibling list containing the visited
element: only the successful `stopped` path mutates the tree, replacing the
original element with the instantiated root. -/
def applyOutcome (siblings : List Node) (el : Node) : HookRes → List Node
  | .stopped inst => replaceFirst siblings el inst.replacement
  | _ => siblings

/-- Erase the setup field of a definition (used to state that the source
hook never reads it). -/
def eraseSetup (d : ComponentDef) : ComponentDef :=
  { template := d.template, setup := none }

/-- The prop watchers the attribute loop registers on the parent compile
state: one per `:`-prefixed attribute, in document order, keyed by the name
with the `:` stripped and carrying the raw expression source. -/
def effectsOf (attrs : List (String × String)) : List (String × String) :=
  (attrs.filter (fun a => strStartsWith a.1 ":")).map (fun a => (strDrop a.1 1, a.2))

/-- Does the scope lookup produce a function-valued member
(`typeof scope[handlerCode] === 'function'`)? -/
def isFuncEntry : Option Entry → Bool
  | some (.func _) => true
  | _ => false

theorem lookupAssoc_setAssoc_self {α : Type} (l : List (String × α)) (k : String) (v : α) :
    lookupAssoc (setAssoc l k v) k = some v := by
  induction l with
  | nil => simp [setAssoc, lookupAssoc]
  | cons p rest ih =>
    by_cases h : p.1 = k
    · simp [setAssoc, h, lookupAssoc]
    · simp [setAssoc, h, lookupAssoc, ih]

theorem lookupAssoc_setAssoc_ne {α : Type} (l : List (String × α)) (k q : String) (v : α)
    (h : k ≠ q) : lookupAssoc (setAssoc l k v) q = lookupAssoc l q := by
  induction l with
  | nil => simp [setAssoc, lookupAssoc, h]
  | cons p rest ih =>
    by_cases hp : p.1 = k
    · simp [setAssoc, hp, lookupAssoc, h]
    · simp [setAssoc, hp, lookupAssoc, ih]

theorem lookupAssoc_map_eraseSetup (l : List (String × ComponentDef)) (k : String) :
    lookupAssoc (l.map (fun p => (p.1, eraseSetup p.2))) k
      = (lookupAssoc l k).map eraseSetup := by
  induction l with
  | nil => simp [lookupAssoc]
  | cons p rest ih =>
    by_cases h : p.1 = k
    · simp [lookupAssoc, h]
    · simp [lookupAssoc, h, ih]

theorem processAttr_ok_csEffects (st : AttrState) (a : String × String) (st2 : AttrState)
    (h : processAttr st a = .ok st2) :
    st2.csEffects =
      if strStartsWith a.1 ":" then st.csEffects ++ [(strDrop a.1 1, a.2)]
      else st.csEffects := by
  simp only [processAttr] at h
  split at h
  · cases h; simp_all
  · split at h
    · cases h; simp_all
    · split at h
      · split at h
        · cases h
        · cases h; simp_all
      · split at h
        · cases h; simp_all
        · split at h
          · cases h
          · cases h; simp_all

theorem processAttrs_csEffects (l : List (String × String)) :
    ∀ (st st2 : AttrState), processAttrs st l = .ok st2 →
      st2.csEffects = st.csEffects ++ effectsOf l := by
  induction l with
  | nil =>
    intro st st2 h
    simp only [processAttrs] at h
    cases h
    simp [effectsOf]
  | cons a rest ih =>
    intro st st2 h
    simp only [processAttrs] at h
    cases hp : processAttr st a with
    | error e => rw [hp] at h; cases h
    | ok st1 =>
      rw [hp] at h
      have h1 := processAttr_ok_csEffects st a st1 hp
      have h2 := ih st1 st2 h
      by_cases hs : strStartsWith a.1 ":"
      · simp [h2, h1, hs, effectsOf, List.filter_cons, List.append_assoc]
      · simp [h2, h1, hs, effectsOf, List.filter_cons]

theorem processAttr_error_name (st : AttrState) (a : String × String) (e : String)
    (h : processAttr st a = .error e) : a.1 = "class" ∨ a.1 = "emit" := by
  simp only [processAttr] at h
  split at h
  · cases h
  · split at h
    · cases h
    · split at h
      · rename_i hclass
        exact Or.inl hclass
      · split at h
        · cases h
        · cases hcs : childSet st.childData a.1 (V.str a.2) with
          | error e2 =>
            simp only [childSet] at hcs
            split at hcs
            · rename_i hemit
              exact Or.inr hemit
            · cases hcs
          | ok cd =>
            rw [hcs] at h
            cases h

theorem processAttrs_error_attr (l : List (String × String)) :
    ∀ (st : AttrState) (e : String), processAttrs st l = .error e →
      ∃ a ∈ l, a.1 = "class" ∨ a.1 = "emit" := by
  induction l with
  | nil => intro st e h; simp [processAttrs] at h
  | cons a rest ih =>
    intro st e h
    simp only [processAttrs] at h
    cases hp : processAttr st a with
    | error e2 =>
      exact ⟨a, List.mem_cons_self a rest, processAttr_error_name st a e2 hp⟩
    | ok st1 =>
      rw [hp] at h
      obtain ⟨b, hb, hn⟩ := ih st1 e h
      exact ⟨b, List.mem_cons_of_mem a hb, hn⟩

theorem replaceSlot_noSlot (inj : List Node) (l : List Node)
    (h : nodesHaveSlot l = false) : replaceSlotList inj l = (l, false) := by
  induction l using nodesHaveSlot.induct with
  | case1 => rw [replaceSlotList.eq_def]
  | case2 t a c rest ih1 ih2 =>
    rw [nodesHaveSlot.eq_def] at h
    simp only [Bool.or_eq_false_iff, decide_eq_false_iff_not] at h
    obtain ⟨⟨ht, hc⟩, hrest⟩ := h
    rw [replaceSlotList.eq_def]
    simp [ht, ih1 hc, ih2 hrest]
  | case3 n rest hn ih =>
    cases n with
    | element t a c => exact absurd rfl (hn t a c)
    | text s =>
      rw [nodesHaveSlot.eq_def] at h
      simp only at h
      rw [replaceSlotList.eq_def]
      simp [ih h]
    | comment s =>
      rw [nodesHaveSlot.eq_def] at h
      simp only at h
      rw [replaceSlotList.eq_def]
      simp [ih h]

theorem replaceSlot_splice (inj : List Node) (t : String) (a : List (String × String))
    (c : List Node) (post : List Node) (ht : strLower t = "slot") :
    ∀ pre, nodesHaveSlot pre = false →
      replaceSlotList inj (pre ++ Node.element t a c :: post) = (pre ++ inj ++ post, true) := by
  intro pre
  induction pre with
  | nil =>
    intro _
    rw [List.nil_append, replaceSlotList.eq_def]
    simp [ht]
  | cons n rest ih =>
    intro h
    cases n with
    | element t2 a2 c2 =>
      rw [nodesHaveSlot.eq_def] at h
      simp only [Bool.or_eq_false_iff, decide_eq_false_iff_not] at h
      obtain ⟨⟨ht2, hc2⟩, hrest⟩ := h
      rw [List.cons_append, replaceSlotList.eq_def]
      simp [ht2, replaceSlot_noSlot inj c2 hc2, ih hrest]
    | text s =>
      rw [nodesHaveSlot.eq_def] at h
      simp only at h
      rw [List.cons_append, replaceSlotList.eq_def]
      simp [ih h]
    | comment s =>
      rw [nodesHaveSlot.eq_def] at h
      simp only at h
      rw [List.cons_append, replaceSlotList.eq_def]
      simp [ih h]

theorem replaceFirst_append (pre suf : List Node) (el repl : Node) (h : el ∉ pre) :
    replaceFirst (pre ++ el :: suf) el repl = pre ++ repl :: suf := by
  induction pre with
  | nil => simp [replaceFirst]
  | cons n rest ih =>
    rw [List.mem_cons, not_or] at h
    rw [List.cons_append]
    simp only [replaceFirst]
    rw [if_neg (fun he => h.1 he.symm), ih h.2, List.cons_append]

theorem foldAddMissing_extends (toks : List String) :
    ∀ cur, ∃ added,
      toks.foldl (fun acc t => if t ∈ acc then acc else acc ++ [t]) cur = cur ++ added ∧
      ∀ t ∈ toks, t ∈ cur ++ added := by
  induction toks with
  | nil => intro cur; exact ⟨[], by simp, by simp⟩
  | cons t rest ih =>
    intro cur
    by_cases h : t ∈ cur
    · obtain ⟨added, ha, hm⟩ := ih cur
      refine ⟨added, by simp [h, ha], ?_⟩
      intro x hx
      rcases List.mem_cons.mp hx with rfl | hx
      · exact List.mem_append.mpr (Or.inl h)
      · exact hm x hx
    · obtain ⟨added, ha, hm⟩ := ih (cur ++ [t])
      refine ⟨t :: added, ?_, ?_⟩
      · simp only [List.foldl_cons, if_neg h]
        rw [ha]
        simp
      · intro x hx
        rcases List.mem_cons.mp hx with rfl | hx
        · simp
        · have := hm x hx
          simpa [List.append_assoc] using this

theorem classListAddTokens_additive (cur toks : List String)
    (h : ∀ t ∈ toks, t ≠ "" ∧ ∀ c ∈ t.data, isJsWhitespaceChar c = false) :
    ∃ added, classListAddTokens cur toks = .ok (cur ++ added) ∧
      ∀ t ∈ toks, t ∈ cur ++ added := by
  obtain ⟨added, ha, hm⟩ := foldAddMissing_extends toks cur
  refine ⟨added, ?_, hm⟩
  simp only [classListAddTokens]
  rw [if_neg, if_neg]
  · rw [ha]
  · rintro ⟨t, ht, c, hc, hw⟩
    have := (h t ht).2 c hc
    rw [this] at hw
    cases hw
  · intro hmem
    exact (h "" hmem).1 rfl

/-- C8: registering a definition with a missing or empty template is a
no-op that logs the warning, inserts no registry entry (every lookup is as
before, so an unmatched name stays unmatched) and, being a total function,
never throws; with a non-empty template the definition is stored under the
lower-cased name, and registering the same name again overwrites the
previous entry. -/
theorem C8_registration :
    (∀ (reg : List (String × ComponentDef)) (name : String) (opts : ComponentDef),
      opts.template = "" →
        registerComponent reg name opts = (reg, [missingTemplateWarn name]) ∧
        ∀ k, lookupAssoc (registerComponent reg name opts).1 k = lookupAssoc reg k) ∧
    (∀ (reg : List (String × ComponentDef)) (name : String) (opts : ComponentDef),
      opts.template ≠ "" →
        lookupAssoc (registerComponent reg name opts).1 (strLower name) = some opts ∧
        (registerComponent reg name opts).2 = []) ∧
    (∀ (reg : List (String × ComponentDef)) (name : String) (o1 o2 : ComponentDef),
      o1.template ≠ "" → o2.template ≠ "" →
        lookupAssoc (registerComponent (registerComponent reg name o1).1 name o2).1
          (strLower name) = some o2) := by
  refine ⟨?_, ?_, ?_⟩
  · intro reg name opts h
    refine ⟨by simp [registerComponent, h], fun k => by simp [registerComponent, h]⟩
  · intro reg name opts h
    refine ⟨by simp [registerComponent, h, lookupAssoc_setAssoc_self],
      by simp [registerComponent, h]⟩
  · intro reg name o1 o2 h1 h2
    simp [registerComponent, h1, h2, lookupAssoc_setAssoc_self]

theorem C8_registration_witness :
    registerComponent [] "Card" ⟨"", none⟩ = ([], [missingTemplateWarn "Card"]) ∧
    lookupAssoc (registerComponent [] "Card" ⟨"<div></div>", none⟩).1 (strLower "Card")
      = some ⟨"<div></div>", none⟩ ∧
    lookupAssoc (registerComponent (registerComponent [] "Card" ⟨"<a></a>", none⟩).1
      "Card" ⟨"<b></b>", none⟩).1 (strLower "Card") = some ⟨"<b></b>", none⟩ :=
  ⟨(C8_registration.1 [] "Card" ⟨"", none⟩ rfl).1,
   (C8_registration.2.1 [] "Card" ⟨"<div></div>", none⟩ (by decide)).1,
   C8_registration.2.2 [] "Card" ⟨"<a></a>", none⟩ ⟨"<b></b>", none⟩ (by decide) (by decide)⟩

/-- C10: an event registered through an `@`-prefixed attribute with an
empty-string value is stored with descriptor `""`, and a later emit of that
event name takes the missing-listener path (the `if (!handlerCode)` check
is a truthiness test, so the empty descriptor is indistinguishable from an
absent one): it warns and returns without invoking or evaluating anything,
and does not throw. -/
theorem C10_empty_descriptor :
    (∀ (scope : ScopeT) (evalInline : String → List (String × Entry) → Except String V)
        (listeners : List (String × String)) (ev : String) (args : List V),
      lookupAssoc listeners ev = some "" →
        emit scope evalInline listeners ev args = Except.ok EmitResult.noListenerWarned) ∧
    (∀ (parse : String → List Node) (tmpl rootTag : String)
        (rootAttrs : List (String × String)) (rootKids rest : List Node) (scope : ScopeT),
      parse (strTrim tmpl) = Node.element rootTag rootAttrs rootKids :: rest →
        ∃ inst, beforeCompile parse [("card", ⟨tmpl, none⟩)]
            (Node.element "z-card" [("@tap", "")] []) scope = .stopped inst ∧
          lookupAssoc inst.parentListeners "tap" = some "") := by
  constructor
  · intro scope evalI listeners ev args h
    simp [emit, h]
  · intro parse tmpl rootTag rootAttrs rootKids rest scope hp
    have hname : componentNameOf "z-card" = "card" := rfl
    have hlu : lookupAssoc [("card", ({ template := tmpl, setup := none } : ComponentDef))]
        "card" = some { template := tmpl, setup := none } := rfl
    have hfe : firstElementChild (Node.element rootTag rootAttrs rootKids :: rest)
        = some (Node.element rootTag rootAttrs rootKids) := rfl
    have hpa : processAttrs (initAttrState (Node.element rootTag rootAttrs rootKids))
        [("@tap", "")]
        = .ok { childData := [], parentListeners := [("tap", "")],
                componentRoot := Node.element rootTag rootAttrs rootKids,
                csEffects := [] } := rfl
    simp only [beforeCompile, hname, hlu, hp, hfe, hpa, childrenOf]
    cases hr : replaceSlotList [] rootKids with
    | mk kids found =>
      cases found
      · exact ⟨_, rfl, rfl⟩
      · exact ⟨_, rfl, rfl⟩

theorem C10_empty_descriptor_witness :
    emit [] (fun _ _ => Except.ok V.undef) [("tap", "")] "tap" []
      = Except.ok EmitResult.noListenerWarned ∧
    (∃ inst, beforeCompile (fun _ => [Node.element "button" [] []])
        [("card", ⟨"<button></button>", none⟩)]
        (Node.element "z-card" [("@tap", "")] []) [] = .stopped inst ∧
      lookupAssoc inst.parentListeners "tap" = some "") :=
  ⟨C10_empty_descriptor.1 [] (fun _ _ => Except.ok V.undef) [("tap", "")] "tap" [] rfl,
   C10_empty_descriptor.2 (fun _ => [Node.element "button" [] []]) "<button></button>"
     "button" [] [] [] [] rfl⟩

/-- C4 (amended): for every event name registered with a NON-EMPTY
descriptor, emit dispatches exactly as the claim describes: a descriptor
naming a function-valued member of the parent scope is invoked with all
emit arguments; any other descriptor is evaluated once as an inline
expression whose bindings are exactly the current scope entries plus
`$event` bound to the first argument (inline evaluation errors are caught
and logged); an unregistered event name warns and is a no-op.  The
amendment excludes the empty-string descriptor, which the truthiness test
routes to the missing-listener path. -/
theorem C4_emit_dispatch :
    (∀ (scope : ScopeT) (evalI : String → List (String × Entry) → Except String V)
        (listeners : List (String × String)) (ev : String) (args : List V),
      lookupAssoc listeners ev = none →
        emit scope evalI listeners ev args = Except.ok EmitResult.noListenerWarned) ∧
    (∀ (scope : ScopeT) (evalI : String → List (String × Entry) → Except String V)
        (listeners : List (String × String)) (ev code : String) (args : List V)
        (f : List V → Except String V) (r : V),
      lookupAssoc listeners ev = some code → code ≠ "" →
      lookupAssoc scope code = some (Entry.func f) → f args = .ok r →
        emit scope evalI listeners ev args = .ok (.calledFunction code args)) ∧
    (∀ (scope : ScopeT) (evalI : String → List (String × Entry) → Except String V)
        (listeners : List (String × String)) (ev code : String) (args : List V) (v : V),
      lookupAssoc listeners ev = some code → code ≠ "" →
      isFuncEntry (lookupAssoc scope code) = false →
      evalI code (scope ++ [("$event", Entry.val (args.headD V.undef))]) = .ok v →
        emit scope evalI listeners ev args
          = .ok (.evaluatedInline code (scope ++ [("$event", Entry.val (args.headD V.undef))]))) ∧
    (∀ (scope : ScopeT) (evalI : String → List (String × Entry) → Except String V)
        (listeners : List (String × String)) (ev code e : String) (args : List V),
      lookupAssoc listeners ev = some code → code ≠ "" →
      isFuncEntry (lookupAssoc scope code) = false →
      evalI code (scope ++ [("$event", Entry.val (args.headD V.undef))]) = .error e →
        emit scope evalI listeners ev args = .ok (.inlineErrorLogged code e)) := by
  refine ⟨?_, ?_, ?_, ?_⟩
  · intro scope evalI listeners ev args h
    simp [emit, h]
  · intro scope evalI listeners ev code args f r h1 h2 h3 h4
    simp [emit, h1, h2, h3, h4]
  · intro scope evalI listeners ev code args v h1 h2 h3 h4
    simp only [emit, h1]
    rw [if_neg h2]
    rw [List.headD_eq_head?] at h4
    cases hl : lookupAssoc scope code with
    | none => simp [h4]
    | some en =>
      cases en with
      | val w => simp [h4]
      | func f => rw [hl] at h3; simp [isFuncEntry] at h3
  · intro scope evalI listeners ev code e args h1 h2 h3 h4
    simp only [emit, h1]
    rw [if_neg h2]
    rw [List.headD_eq_head?] at h4
    cases hl : lookupAssoc scope code with
    | none => simp [h4]
    | some en =>
      cases en with
      | val w => simp [h4]
      | func f => rw [hl] at h3; simp [isFuncEntry] at h3

theorem C4_emit_dispatch_witness :
    emit [] (fun _ _ => Except.ok V.undef) [] "close" []
      = Except.ok EmitResult.noListenerWarned ∧
    emit [("save", Entry.func (fun _ => Except.ok (V.int 1)))] (fun _ _ => Except.ok V.undef)
      [("close", "save")] "close" [V.int 7]
      = Except.ok (EmitResult.calledFunction "save" [V.int 7]) ∧
    emit [("n", Entry.val (V.int 3))] (fun _ _ => Except.ok V.undef)
      [("close", "n += 1")] "close" [V.int 7]
      = Except.ok (EmitResult.evaluatedInline "n += 1"
          [("n", Entry.val (V.int 3)), ("$event", Entry.val (V.int 7))]) ∧
    emit [] (fun _ _ => Except.error "SyntaxError") [("close", "oops(")] "close" []
      = Except.ok (EmitResult.inlineErrorLogged "oops(" "SyntaxError") :=
  ⟨C4_emit_dispatch.1 [] (fun _ _ => Except.ok V.undef) [] "close" [] rfl,
   C4_emit_dispatch.2.1 [("save", Entry.func (fun _ => Except.ok (V.int 1)))]
     (fun _ _ => Except.ok V.undef) [("close", "save")] "close" "save" [V.int 7]
     (fun _ => Except.ok (V.int 1)) (V.int 1) rfl (by decide) rfl rfl,
   C4_emit_dispatch.2.2.1 [("n", Entry.val (V.int 3))] (fun _ _ => Except.ok V.undef)
     [("close", "n += 1")] "close" "n += 1" [V.int 7] V.undef rfl (by decide) rfl rfl,
   C4_emit_dispatch.2.2.2 [] (fun _ _ => Except.error "SyntaxError")
     [("close", "oops(")] "close" "oops(" "SyntaxError" [] rfl (by decide) rfl rfl⟩

/-- C4 (counterexample): the claim as stated fails at an event registered
with the empty-string descriptor: emit takes the missing-listener warning
path instead of evaluating the descriptor as an inline expression. -/
theorem C4_counterexample :
    emit [] (fun _ _ => Except.ok V.undef) [("tap", "")] "tap" []
      = Except.ok EmitResult.noListenerWarned ∧
    (Except.ok EmitResult.noListenerWarned
      ≠ (Except.ok (EmitResult.evaluatedInline "" [("$event", Entry.val V.undef)])
          : Except String EmitResult)) := by
  refine ⟨rfl, ?_⟩
  intro h
  injection h with h2
  cases h2

/-- C3 (amended): `registerComponent` is total and the inline-expression
and prop-evaluation paths catch and log their errors, but the exception
boundary is not complete: `emit` propagates an exception to its caller
exactly when the listener descriptor resolves to a function-valued parent
member whose invocation throws (that call sits outside the try/catch), and
the compile hook propagates an exception only out of a `class` attribute
merge (invalid class tokens) or a static attribute named `emit` (the
read-only member).  The first part characterizes every possible `emit`
exception; the second shows a hook exception implicates such an
attribute. -/
theorem C3_exception_boundary :
    (∀ (scope : ScopeT) (evalI : String → List (String × Entry) → Except String V)
        (listeners : List (String × String)) (ev e : String) (args : List V),
      emit scope evalI listeners ev args = .error e ↔
        ∃ code f, lookupAssoc listeners ev = some code ∧ code ≠ "" ∧
          lookupAssoc scope code = some (Entry.func f) ∧ f args = .error e) ∧
    (∀ (parse : String → List Node) (registry : List (String × ComponentDef))
        (el : Node) (scope : ScopeT) (e : String),
      beforeCompile parse registry el scope = .threw e →
        ∃ a ∈ attrsOf el, a.1 = "class" ∨ a.1 = "emit") := by
  constructor
  · intro scope evalI listeners ev e args
    constructor
    · intro h
      simp only [emit] at h
      cases hl : lookupAssoc listeners ev with
      | none => simp only [hl] at h; cases h
      | some code =>
        simp only [hl] at h
        by_cases hc : code = ""
        · rw [if_pos hc] at h; cases h
        · rw [if_neg hc] at h
          cases hs : lookupAssoc scope code with
          | none =>
            simp only [hs] at h
            split at h
            · cases h
            · cases h
          | some en =>
            cases en with
            | val w =>
              simp only [hs] at h
              split at h
              · cases h
              · cases h
            | func f =>
              simp only [hs] at h
              cases hf : f args with
              | ok r => simp only [hf] at h; cases h
              | error e2 =>
                simp only [hf] at h
                injection h with he
                exact ⟨code, f, rfl, hc, hs, by rw [hf, he]⟩
    · rintro ⟨code, f, h1, h2, h3, h4⟩
      simp [emit, h1, h2, h3, h4]
  · intro parse registry el scope e h
    cases el with
    | text s => simp [beforeCompile] at h
    | comment s => simp [beforeCompile] at h
    | element tag attrs children =>
      simp only [beforeCompile] at h
      cases hl : lookupAssoc registry (componentNameOf tag) with
      | none => simp only [hl] at h; cases h
      | some defn =>
        simp only [hl] at h
        cases hf : firstElementChild (parse (strTrim defn.template)) with
        | none => simp only [hf] at h; cases h
        | some root =>
          simp only [hf] at h
          cases hpa : processAttrs (initAttrState root) attrs with
          | error e2 =>
            simpa [attrsOf] using processAttrs_error_attr attrs (initAttrState root) e2 hpa
          | ok st =>
            simp only [hpa] at h
            cases hr : replaceSlotList children (childrenOf st.componentRoot) with
            | mk kids found =>
              simp only [hr] at h
              cases found <;> simp at h

theorem C3_exception_boundary_witness :
    emit [("boom", Entry.func (fun _ => Except.error "listener crash"))]
      (fun _ _ => Except.ok V.undef) [("close", "boom")] "close" []
      = Except.error "listener crash" ∧
    (∃ a ∈ attrsOf (Node.element "z-card" [("class", "a\tb")] []),
      a.1 = "class" ∨ a.1 = "emit") :=
  ⟨(C3_exception_boundary.1 [("boom", Entry.func (fun _ => Except.error "listener crash"))]
      (fun _ _ => Except.ok V.undef) [("close", "boom")] "close" "listener crash" []).mpr
      ⟨"boom", fun _ => Except.error "listener crash", rfl, by decide, rfl, rfl⟩,
   C3_exception_boundary.2 (fun _ => [Node.element "div" [] []])
     [("card", ⟨"<div></div>", none⟩)] (Node.element "z-card" [("class", "a\tb")] [])
     [] "InvalidCharacterError: class token contains whitespace" rfl⟩

/-- C3 (counterexample): the claim as stated fails because `emit` can raise
an exception to its caller: with a parent scope whose `boom` member is a
function that throws, emitting a `close` event whose registered descriptor
is `boom` propagates the thrown error (the named-handler invocation is not
wrapped in the try/catch). -/
theorem C3_counterexample :
    emit [("boom", Entry.func (fun _ => Except.error "Error: crash"))]
      (fun _ _ => Except.ok V.undef) [("close", "boom")] "close" [V.int 1]
      = Except.error "Error: crash" := rfl

/-- C1 (amended): the resolver never invokes `definition.setup`: the hook
reads only the `template` field of a matched definition, so its outcome is
unchanged when every registered definition's setup function is erased, and
ChildState receives only attribute-derived entries (no setup-provided
keys).  This theorem has no hypotheses, quantifying over every parser,
registry, element and scope. -/
theorem C1_setup_never_invoked (parse : String → List Node)
    (registry : List (String × ComponentDef)) (el : Node) (scope : ScopeT) :
    beforeCompile parse (registry.map (fun p => (p.1, eraseSetup p.2))) el scope
      = beforeCompile parse registry el scope := by
  cases el with
  | text s => rfl
  | comment s => rfl
  | element tag attrs children =>
    simp only [beforeCompile, lookupAssoc_map_eraseSetup]
    cases hl : lookupAssoc registry (componentNameOf tag) with
    | none => rfl
    | some defn => rfl

/-- C1 (counterexample): the claim as stated fails at a definition carrying
a setup function that returns the object with entry `n = 0`: resolving a
matching tag yields a child state with no `n` entry at all (the setup
function is never invoked, its returned object never merged). -/
theorem C1_counterexample :
    beforeCompile (fun _ => [Node.element "div" [] []])
      [("card", { template := "<div></div>",
                  setup := some (fun _ => some [("n", V.int 0)]) })]
      (Node.element "z-card" [] []) []
      = .stopped { childData := [], parentListeners := [], csEffects := [],
                   parentCompiled := [], replacement := Node.element "div" [] [] } ∧
    lookupAssoc ([] : List (String × V)) "n" = none := by
  constructor
  · simp [beforeCompile, componentNameOf, lookupAssoc, strLower, lowerChar, strStartsWith,
      strDrop, strTrim, firstElementChild, processAttrs, initAttrState,
      replaceSlotList, childrenOf, isElem]
  · rfl

/-- C2 (amended): a template that parses to zero root elements makes the
hook log the shape error and return false without installing any
replacement, the original element being left in place untouched; but a
template that parses to more than one root element is NOT rejected: the
hook silently uses the first root element as the replacement and discards
the remaining roots, performing a normal instantiation with no shape
error. -/
theorem C2_template_shape :
    (∀ (parse : String → List Node) (registry : List (String × ComponentDef))
        (tag : String) (attrs : List (String × String)) (children : List Node)
        (scope : ScopeT) (defn : ComponentDef),
      lookupAssoc registry (componentNameOf tag) = some defn →
      firstElementChild (parse (strTrim defn.template)) = none →
        beforeCompile parse registry (Node.element tag attrs children) scope
          = .stoppedNoRoot ∧
        ∀ siblings : List Node,
          applyOutcome siblings (Node.element tag attrs children)
            (beforeCompile parse registry (Node.element tag attrs children) scope)
          = siblings) ∧
    (∀ (parse : String → List Node) (registry : List (String × ComponentDef))
        (tag : String) (scope : ScopeT) (defn : ComponentDef) (e1 : Node)
        (more : List Node),
      lookupAssoc registry (componentNameOf tag) = some defn →
      parse (strTrim defn.template) = e1 :: more →
      isElem e1 = true →
      nodesHaveSlot (childrenOf e1) = false →
        beforeCompile parse registry (Node.element tag [] []) scope
          = .stopped { childData := [], parentListeners := [], csEffects := [],
                       parentCompiled := [], replacement := e1 }) := by
  constructor
  · intro parse registry tag attrs children scope defn hl hfe
    have hres : beforeCompile parse registry (Node.element tag attrs children) scope
        = .stoppedNoRoot := by
      simp only [beforeCompile, hl, hfe]
    exact ⟨hres, fun siblings => by rw [hres]; rfl⟩
  · intro parse registry tag scope defn e1 more hl hp hel hns
    cases e1 with
    | text s => simp [isElem] at hel
    | comment s => simp [isElem] at hel
    | element rt ra rk =>
      have hfe : firstElementChild (Node.element rt ra rk :: more)
          = some (Node.element rt ra rk) := rfl
      have hpa : processAttrs (initAttrState (Node.element rt ra rk)) []
          = .ok { childData := [], parentListeners := [],
                  componentRoot := Node.element rt ra rk, csEffects := [] } := rfl
      have hr := replaceSlot_noSlot ([] : List Node) rk (by simpa [childrenOf] using hns)
      simp only [beforeCompile, hl, hp, hfe, hpa, childrenOf, hr]

theorem C2_template_shape_witness :
    beforeCompile (fun _ => [Node.text "hello"]) [("card", ⟨"hello", none⟩)]
      (Node.element "z-card" [] []) [] = .stoppedNoRoot ∧
    applyOutcome [Node.element "z-card" [] []] (Node.element "z-card" [] [])
      (beforeCompile (fun _ => [Node.text "hello"]) [("card", ⟨"hello", none⟩)]
        (Node.element "z-card" [] []) []) = [Node.element "z-card" [] []] ∧
    beforeCompile (fun _ => [Node.element "a" [] [], Node.element "b" [] []])
      [("card", ⟨"<a></a><b></b>", none⟩)] (Node.element "z-card" [] []) []
      = .stopped { childData := [], parentListeners := [], csEffects := [],
                   parentCompiled := [], replacement := Node.element "a" [] [] } :=
  ⟨(C2_template_shape.1 (fun _ => [Node.text "hello"]) [("card", ⟨"hello", none⟩)]
      "z-card" [] [] [] ⟨"hello", none⟩ rfl rfl).1,
   (C2_template_shape.1 (fun _ => [Node.text "hello"]) [("card", ⟨"hello", none⟩)]
      "z-card" [] [] [] ⟨"hello", none⟩ rfl rfl).2 [Node.element "z-card" [] []],
   C2_template_shape.2 (fun _ => [Node.element "a" [] [], Node.element "b" [] []])
     [("card", ⟨"<a></a><b></b>", none⟩)] "z-card" [] ⟨"<a></a><b></b>", none⟩
     (Node.element "a" [] []) [Node.element "b" [] []] rfl rfl rfl
     (by rw [show childrenOf (Node.element "a" [] []) = [] from rfl, nodesHaveSlot.eq_def])⟩

/-- C2 (counterexample): the claim as stated fails at the two-root template
of Scenario E: the hook does not report a shape error and does produce a
replacement node (the first root element), returning a successful
instantiation instead of the stop-without-replacement the claim
requires. -/
theorem C2_counterexample :
    beforeCompile (fun _ => [Node.element "div" [] [], Node.element "div" [] []])
      [("card", ⟨"<div></div><div></div>", none⟩)] (Node.element "z-card" [] []) []
      = .stopped { childData := [], parentListeners := [], csEffects := [],
                   parentCompiled := [], replacement := Node.element "div" [] [] } ∧
    (HookRes.stopped { childData := [], parentListeners := [], csEffects := [],
                       parentCompiled := [], replacement := Node.element "div" [] [] }
      ≠ HookRes.stoppedNoRoot) := by
  constructor
  · simp [beforeCompile, componentNameOf, lookupAssoc, strLower, lowerChar, strStartsWith,
      strDrop, strTrim, firstElementChild, processAttrs, initAttrState,
      replaceSlotList, childrenOf, isElem]
  · intro h; cases h

/-- C5: when the parsed template root contains a slot placeholder, the
original element's children are all compiled against the parent scope and
the parent's compile state (in document order, before being moved — the
`parentCompiled` field), relocated in original order into the slot's
position, and the slot placeholder itself is removed; when the template
root contains no slot placeholder, the original children are discarded
without being compiled (`parentCompiled` is empty) or retained (the
replacement keeps exactly the template's own children). -/
theorem C5_slot_projection :
    (∀ (parse : String → List Node) (tmpl rootTag slotTag : String)
        (rootAttrs slotAttrs : List (String × String))
        (pre post slotKids rest children : List Node) (scope : ScopeT),
      parse (strTrim tmpl)
          = Node.element rootTag rootAttrs
              (pre ++ Node.element slotTag slotAttrs slotKids :: post) :: rest →
      strLower slotTag = "slot" →
      nodesHaveSlot pre = false →
        beforeCompile parse [("card", ⟨tmpl, none⟩)]
            (Node.element "z-card" [] children) scope
          = .stopped { childData := [], parentListeners := [], csEffects := [],
                       parentCompiled := children,
                       replacement :=
                         Node.element rootTag rootAttrs (pre ++ children ++ post) }) ∧
    (∀ (parse : String → List Node) (tmpl rootTag : String)
        (rootAttrs : List (String × String)) (rootKids rest children : List Node)
        (scope : ScopeT),
      parse (strTrim tmpl) = Node.element rootTag rootAttrs rootKids :: rest →
      nodesHaveSlot rootKids = false →
        beforeCompile parse [("card", ⟨tmpl, none⟩)]
            (Node.element "z-card" [] children) scope
          = .stopped { childData := [], parentListeners := [], csEffects := [],
                       parentCompiled := [],
                       replacement := Node.element rootTag rootAttrs rootKids }) := by
  constructor
  · intro parse tmpl rootTag slotTag rootAttrs slotAttrs pre post slotKids rest children
      scope hp hst hpre
    have hname : componentNameOf "z-card" = "card" := rfl
    have hlu : lookupAssoc [("card", ({ template := tmpl, setup := none } : ComponentDef))]
        "card" = some { template := tmpl, setup := none } := rfl
    have hfe : firstElementChild (Node.element rootTag rootAttrs
          (pre ++ Node.element slotTag slotAttrs slotKids :: post) :: rest)
        = some (Node.element rootTag rootAttrs
            (pre ++ Node.element slotTag slotAttrs slotKids :: post)) := rfl
    have hpa : processAttrs (initAttrState (Node.element rootTag rootAttrs
          (pre ++ Node.element slotTag slotAttrs slotKids :: post))) []
        = .ok { childData := [], parentListeners := [],
                componentRoot := Node.element rootTag rootAttrs
                  (pre ++ Node.element slotTag slotAttrs slotKids :: post),
                csEffects := [] } := rfl
    have hr := replaceSlot_splice children slotTag slotAttrs slotKids post hst pre hpre
    simp only [beforeCompile, hname, hlu, hp, hfe, hpa, childrenOf, hr, setChildren]
  · intro parse tmpl rootTag rootAttrs rootKids rest children scope hp hns
    have hname : componentNameOf "z-card" = "card" := rfl
    have hlu : lookupAssoc [("card", ({ template := tmpl, setup := none } : ComponentDef))]
        "card" = some { template := tmpl, setup := none } := rfl
    have hfe : firstElementChild (Node.element rootTag rootAttrs rootKids :: rest)
        = some (Node.element rootTag rootAttrs rootKids) := rfl
    have hpa : processAttrs (initAttrState (Node.element rootTag rootAttrs rootKids)) []
        = .ok { childData := [], parentListeners := [],
                componentRoot := Node.element rootTag rootAttrs rootKids,
                csEffects := [] } := rfl
    have hr := replaceSlot_noSlot children rootKids hns
    simp only [beforeCompile, hname, hlu, hp, hfe, hpa, childrenOf, hr]

theorem C5_slot_projection_witness :
    beforeCompile (fun _ => [Node.element "div" [("class", "box")]
        [Node.element "slot" [] []]])
      [("card", ⟨"<div class=box><slot></slot></div>", none⟩)]
      (Node.element "z-card" [] [Node.text "hi"]) []
      = .stopped { childData := [], parentListeners := [], csEffects := [],
                   parentCompiled := [Node.text "hi"],
                   replacement := Node.element "div" [("class", "box")] [Node.text "hi"] } ∧
    beforeCompile (fun _ => [Node.element "div" [] [Node.text "static"]])
      [("card", ⟨"<div>static</div>", none⟩)]
      (Node.element "z-card" [] [Node.text "dropped"]) []
      = .stopped { childData := [], parentListeners := [], csEffects := [],
                   parentCompiled := [],
                   replacement := Node.element "div" [] [Node.text "static"] } :=
  ⟨by
    have h := C5_slot_projection.1
      (fun _ => [Node.element "div" [("class", "box")] [Node.element "slot" [] []]])
      "<div class=box><slot></slot></div>" "div" "slot" [("class", "box")] []
      [] [] [] [] [Node.text "hi"] [] rfl rfl (by rw [nodesHaveSlot.eq_def])
    simpa using h,
   by
    have h := C5_slot_projection.2
      (fun _ => [Node.element "div" [] [Node.text "static"]])
      "<div>static</div>" "div" [] [Node.text "static"] [] [Node.text "dropped"] []
      rfl (by simp [nodesHaveSlot])
    simpa using h⟩

/-- C6: for every attribute whose name starts with `:`, the hook registers
on the parent's compile state (via `cs.addEffect(watchEffect(...))`) a
reactive computation keyed by the prop name (the attribute name without
the `:`) and carrying the attribute's expression — the registered effects
of a successful match are exactly `effectsOf attrs` — and the watcher body
evaluates the expression against the parent scope and assigns the result
into child state under the prop name; if the evaluation throws, the error
is caught and logged, child data is left unchanged for this cycle (the
prop stays unset), and a successful binding touches no other prop's
entry. -/
theorem C6_prop_binding :
    (∀ (parse : String → List Node) (registry : List (String × ComponentDef))
        (tag : String) (attrs : List (String × String)) (children : List Node)
        (scope : ScopeT) (inst : Instance),
      beforeCompile parse registry (Node.element tag attrs children) scope
        = .stopped inst →
        inst.csEffects = effectsOf attrs) ∧
    (∀ (evalExp : String → ScopeT → Except String V) (scope : ScopeT)
        (cd : List (String × V)) (p expr : String) (v : V),
      p ≠ "emit" → evalExp expr scope = .ok v →
        runPropBinding evalExp scope cd (p, expr) = (setAssoc cd p v, []) ∧
        ∀ q, q ≠ p → lookupAssoc (setAssoc cd p v) q = lookupAssoc cd q) ∧
    (∀ (evalExp : String → ScopeT → Except String V) (scope : ScopeT)
        (cd : List (String × V)) (p expr e : String),
      evalExp expr scope = .error e →
        runPropBinding evalExp scope cd (p, expr) = (cd, [propErrorLog p])) := by
  refine ⟨?_, ?_, ?_⟩
  · intro parse registry tag attrs children scope inst h
    simp only [beforeCompile] at h
    cases hl : lookupAssoc registry (componentNameOf tag) with
    | none => simp only [hl] at h; cases h
    | some defn =>
      simp only [hl] at h
      cases hf : firstElementChild (parse (strTrim defn.template)) with
      | none => simp only [hf] at h; cases h
      | some root =>
        simp only [hf] at h
        cases hpa : processAttrs (initAttrState root) attrs with
        | error e2 => simp only [hpa] at h; cases h
        | ok st =>
          simp only [hpa] at h
          have heff := processAttrs_csEffects attrs (initAttrState root) st hpa
          simp only [initAttrState, List.nil_append] at heff
          cases hr : replaceSlotList children (childrenOf st.componentRoot) with
          | mk kids found =>
            simp only [hr] at h
            cases found
            · cases h; simpa using heff
            · cases h; simpa using heff
  · intro evalExp scope cd p expr v hp he
    refine ⟨by simp [runPropBinding, he, childSet, hp], ?_⟩
    intro q hq
    exact lookupAssoc_setAssoc_ne cd p q v (fun h2 => hq h2.symm)
  · intro evalExp scope cd p expr e he
    simp [runPropBinding, he]

theorem C6_prop_binding_witness :
    (∃ inst, beforeCompile (fun _ => [Node.element "header" [] []])
        [("header", ⟨"<header></header>", none⟩)]
        (Node.element "z-header" [(":label", "title"), ("id", "top")] []) []
        = .stopped inst ∧ inst.csEffects = [("label", "title")]) ∧
    runPropBinding (fun _ _ => Except.ok (V.str "Home")) [] [] ("label", "title")
      = ([("label", V.str "Home")], []) ∧
    runPropBinding (fun _ _ => Except.error "ReferenceError") [] [("other", V.int 1)]
      ("label", "title")
      = ([("other", V.int 1)], [propErrorLog "label"]) := by
  refine ⟨?_, ?_, ?_⟩
  · have hres : beforeCompile (fun _ => [Node.element "header" [] []])
        [("header", ⟨"<header></header>", none⟩)]
        (Node.element "z-header" [(":label", "title"), ("id", "top")] []) []
        = .stopped { childData := [("id", V.str "top")], parentListeners := [],
                     csEffects := [("label", "title")], parentCompiled := [],
                     replacement := Node.element "header" [] [] } := by
      simp [beforeCompile, componentNameOf, lookupAssoc, strLower, lowerChar,
        strStartsWith, strDrop, strTrim, firstElementChild, processAttrs, processAttr,
        childSet, setAssoc, initAttrState, replaceSlotList, childrenOf, isElem]
    refine ⟨_, hres, ?_⟩
    exact C6_prop_binding.1 (fun _ => [Node.element "header" [] []])
      [("header", ⟨"<header></header>", none⟩)] "z-header"
      [(":label", "title"), ("id", "top")] [] [] _ hres
  · exact (C6_prop_binding.2.1 (fun _ _ => Except.ok (V.str "Home")) [] [] "label"
      "title" (V.str "Home") (by decide) rfl).1
  · exact C6_prop_binding.2.2 (fun _ _ => Except.error "ReferenceError") []
      [("other", V.int 1)] "label" "title" "ReferenceError" rfl

/-- C7: non-element nodes are ignored (the hook returns undefined) and
tags that do not match the registry return true — both non-false, so host
compilation continues unchanged; a matched tag whose template parse has a
first root element and whose attribute loop succeeds produces exactly one
instantiation: one fresh ChildState, one listener map, one `stopped`
outcome (`return false`), and one replacement root whose `replaceWith`
installs it exactly where the original element sat in its sibling list,
leaving no occurrence of the original element in the result. -/
theorem C7_single_instantiation :
    (∀ (parse : String → List Node) (registry : List (String × ComponentDef))
        (s : String) (scope : ScopeT),
      beforeCompile parse registry (Node.text s) scope = .ignoredNonElement ∧
      beforeCompile parse registry (Node.comment s) scope = .ignoredNonElement) ∧
    (∀ (parse : String → List Node) (registry : List (String × ComponentDef))
        (tag : String) (attrs : List (String × String)) (children : List Node)
        (scope : ScopeT),
      lookupAssoc registry (componentNameOf tag) = none →
        beforeCompile parse registry (Node.element tag attrs children) scope = .noMatch) ∧
    (∀ (parse : String → List Node) (registry : List (String × ComponentDef))
        (tag : String) (attrs : List (String × String)) (children : List Node)
        (scope : ScopeT) (defn : ComponentDef) (root : Node) (st : AttrState),
      lookupAssoc registry (componentNameOf tag) = some defn →
      firstElementChild (parse (strTrim defn.template)) = some root →
      processAttrs (initAttrState root) attrs = .ok st →
        ∃ inst, beforeCompile parse registry (Node.element tag attrs children) scope
            = .stopped inst ∧
          ∀ (pre suf : List Node),
            Node.element tag attrs children ∉ pre →
            Node.element tag attrs children ∉ suf →
            inst.replacement ≠ Node.element tag attrs children →
              applyOutcome (pre ++ Node.element tag attrs children :: suf)
                  (Node.element tag attrs children) (.stopped inst)
                = pre ++ inst.replacement :: suf ∧
              Node.element tag attrs children ∉ pre ++ inst.replacement :: suf) := by
  refine ⟨?_, ?_, ?_⟩
  · intro parse registry s scope
    exact ⟨rfl, rfl⟩
  · intro parse registry tag attrs children scope h
    simp only [beforeCompile, h]
  · intro parse registry tag attrs children scope defn root st hl hfe hpa
    have hrest : ∀ inst : Instance,
        ∀ (pre suf : List Node),
          Node.element tag attrs children ∉ pre →
          Node.element tag attrs children ∉ suf →
          inst.replacement ≠ Node.element tag attrs children →
            applyOutcome (pre ++ Node.element tag attrs children :: suf)
                (Node.element tag attrs children) (.stopped inst)
              = pre ++ inst.replacement :: suf ∧
            Node.element tag attrs children ∉ pre ++ inst.replacement :: suf := by
      intro inst pre suf h1 h2 h3
      constructor
      · exact replaceFirst_append pre suf _ _ h1
      · intro hmem
        rcases List.mem_append.mp hmem with hm | hm
        · exact h1 hm
        · rcases List.mem_cons.mp hm with he | hm2
          · exact h3 he.symm
          · exact h2 hm2
    simp only [beforeCompile, hl, hfe, hpa]
    cases hr : replaceSlotList children (childrenOf st.componentRoot) with
    | mk kids found =>
      cases found
      · exact ⟨_, rfl, hrest _⟩
      · exact ⟨_, rfl, hrest _⟩

theorem C7_single_instantiation_witness :
    beforeCompile (fun _ => []) [] (Node.text "x") [] = .ignoredNonElement ∧
    beforeCompile (fun _ => []) [] (Node.element "span" [] []) [] = .noMatch ∧
    (∃ inst, beforeCompile (fun _ => [Node.element "div" [] []])
        [("card", ⟨"<div></div>", none⟩)] (Node.element "z-card" [] []) []
        = .stopped inst ∧
      ∀ (pre suf : List Node),
        Node.element "z-card" [] [] ∉ pre →
        Node.element "z-card" [] [] ∉ suf →
        inst.replacement ≠ Node.element "z-card" [] [] →
          applyOutcome (pre ++ Node.element "z-card" [] [] :: suf)
              (Node.element "z-card" [] []) (.stopped inst)
            = pre ++ inst.replacement :: suf ∧
          Node.element "z-card" [] [] ∉ pre ++ inst.replacement :: suf) :=
  ⟨(C7_single_instantiation.1 (fun _ => []) [] "x" []).1,
   C7_single_instantiation.2.1 (fun _ => []) [] "span" [] [] [] rfl,
   C7_single_instantiation.2.2 (fun _ => [Node.element "div" [] []])
     [("card", ⟨"<div></div>", none⟩)] "z-card" [] [] [] ⟨"<div></div>", none⟩
     (Node.element "div" [] []) (initAttrState (Node.element "div" [] []))
     rfl rfl rfl⟩

/-- C9 (amended): the usage-site class attribute value is split on single
spaces (not on general whitespace) and the resulting tokens are added to
the replacement root's existing class token list additively — the existing
tokens survive as a prefix and every usage-site token is present
afterwards — provided every space-split token is non-empty and free of
other whitespace; otherwise `classList.add` throws out of the hook instead
of merging.  The usage-site style text is appended to the root's existing
inline style after a `;` separator, the existing style surviving as a
prefix.  The amendment restricts the class clause to well-formed
single-space-separated values, as the counterexample forces. -/
theorem C9_class_style_merge :
    (∀ (cur toks : List String),
      (∀ t ∈ toks, t ≠ "" ∧ ∀ c ∈ t.data, isJsWhitespaceChar c = false) →
        ∃ added, classListAddTokens cur toks = .ok (cur ++ added) ∧
          ∀ t ∈ toks, t ∈ cur ++ added) ∧
    (∀ (st : AttrState) (v : String) (st2 : AttrState),
      processAttr st ("class", v) = .ok st2 →
        ∃ attrs2, addClassAttr (attrsOf st.componentRoot) v = .ok attrs2 ∧
          st2 = { st with componentRoot := withAttrs st.componentRoot attrs2 }) ∧
    (∀ (st : AttrState) (v : String),
      processAttr st ("style", v)
        = Except.ok
            { st with
              componentRoot := withAttrs st.componentRoot
                (appendStyleAttr (attrsOf st.componentRoot) v) }) ∧
    (∀ (attrs : List (String × String)) (v : String),
      getAttr (appendStyleAttr attrs v) "style"
        = some (((getAttr attrs "style").getD "") ++ ";" ++ v)) := by
  refine ⟨?_, ?_, ?_, ?_⟩
  · exact fun cur toks h => classListAddTokens_additive cur toks h
  · intro st v st2 h
    simp only [processAttr] at h
    rw [if_pos trivial] at h
    cases haca : addClassAttr (attrsOf st.componentRoot) v with
    | error e => simp only [haca] at h; cases h
    | ok attrs2 =>
      simp only [haca] at h
      injection h with h2
      exact ⟨attrs2, rfl, h2.symm⟩
  · intro st v
    rfl
  · intro attrs v
    simp [appendStyleAttr, getAttr, lookupAssoc_setAssoc_self]

theorem C9_class_style_merge_witness :
    (∃ added, classListAddTokens ["box"] ["big"] = .ok (["box"] ++ added) ∧
      ∀ t ∈ ["big"], t ∈ ["box"] ++ added) ∧
    (∃ attrs2, addClassAttr
        (attrsOf (Node.element "div" [("class", "box")] [])) "big" = .ok attrs2 ∧
      ({ childData := [], parentListeners := [],
         componentRoot := Node.element "div" [("class", "box big")] [],
         csEffects := [] } : AttrState)
        = { childData := [], parentListeners := [],
            componentRoot := withAttrs (Node.element "div" [("class", "box")] []) attrs2,
            csEffects := [] }) ∧
    processAttr { childData := [], parentListeners := [],
                  componentRoot := Node.element "div" [("style", "margin: 0")] [],
                  csEffects := [] } ("style", "color: red")
      = .ok { childData := [], parentListeners := [],
              componentRoot := Node.element "div" [("style", "margin: 0;color: red")] [],
              csEffects := [] } ∧
    getAttr (appendStyleAttr [("style", "margin: 0")] "color: red") "style"
      = some ("margin: 0;color: red") :=
  ⟨C9_class_style_merge.1 ["box"] ["big"] (by decide),
   C9_class_style_merge.2.1
     { childData := [], parentListeners := [],
       componentRoot := Node.element "div" [("class", "box")] [], csEffects := [] }
     "big"
     { childData := [], parentListeners := [],
       componentRoot := Node.element "div" [("class", "box big")] [], csEffects := [] }
     rfl,
   C9_class_style_merge.2.2.1
     { childData := [], parentListeners := [],
       componentRoot := Node.element "div" [("style", "margin: 0")] [], csEffects := [] }
     "color: red",
   C9_class_style_merge.2.2.2 [("style", "margin: 0")] "color: red"⟩

/-- C9 (counterexample): the claim as stated fails at the usage-site class
value containing a tab: the claim predicts the whitespace-split tokens
(here `a` and `b`) are added to the root's class list, but the code splits
only on single spaces, hands `classList.add` the token containing a tab,
and the merge throws an invalid-character exception out of the hook — no
tokens are added at all. -/
theorem C9_counterexample :
    beforeCompile (fun _ => [Node.element "div" [("class", "box")] []])
      [("card", ⟨"<div class=box></div>", none⟩)]
      (Node.element "z-card" [("class", "a\tb")] []) []
      = .threw "InvalidCharacterError: class token contains whitespace" ∧
    splitWsTokens "a\tb" = ["a", "b"] := ⟨rfl, rfl⟩

end Zog
